import Mathlib

/-!
Shallow embedding of the kanban-tui core (task/column/board data model and
the App state machine) together with theorems settling the specification
claims about it.  Definitions mirror the Rust source in `src/lib.rs`
(`Priority`, `Task`, `Column`, `Board`) and `src/app.rs` (`App`); Rust's
mutable-reference methods become state-passing functions, `Result<T, String>`
becomes `Except String T × Board` (result paired with the final state), and
the nondeterministic clock `current_timestamp()` becomes an explicit `now`
argument.
-/

namespace Kanban

/-- `Priority` enum from `src/lib.rs` / `src/task.rs`, variants in Rust
declaration order: High, Medium, Low, None. -/
inductive Priority where
  | High
  | Medium
  | Low
  | None
deriving DecidableEq

/-- The discriminant Rust assigns to each variant: the declaration index.
Rust's `derive(PartialOrd, Ord)` on a C-like enum compares these. -/
def Priority.discriminant : Priority → Nat
  | .High => 0
  | .Medium => 1
  | .Low => 2
  | .None => 3

/-- The strict comparison `<` produced by Rust's `derive(PartialOrd, Ord)`:
variants compare by declaration order. -/
def Priority.ltb (a b : Priority) : Bool :=
  a.discriminant < b.discriminant

/-- `Priority::next` from `src/lib.rs`: cycles None→Low→Medium→High→None. -/
def Priority.next : Priority → Priority
  | .None => .Low
  | .Low => .Medium
  | .Medium => .High
  | .High => .None

/-- `Task` struct from `src/lib.rs`. -/
structure Task where
  id : Nat
  title : String
  description : Option String
  priority : Priority
  tags : List String
  created_at : String
  updated_at : String
  due_date : Option String
deriving DecidableEq

/-- `Task::new(id, title)`; `now` is the value of `current_timestamp()`. -/
def Task.new (id : Nat) (title now : String) : Task :=
  { id := id
    title := title
    description := none
    priority := .None
    tags := []
    created_at := now
    updated_at := now
    due_date := none }

/-- `Task::cycle_priority`. -/
def Task.cycle_priority (t : Task) (now : String) : Task :=
  { t with priority := t.priority.next, updated_at := now }

/-- `Task::add_tag`: appends the tag unless it is already present or empty. -/
def Task.add_tag (t : Task) (tag now : String) : Task :=
  if !(t.tags.contains tag) && !(tag == "") then
    { t with tags := t.tags ++ [tag], updated_at := now }
  else
    t

/-- `Column` struct from `src/lib.rs`. -/
structure Column where
  name : String
  tasks : List Task
deriving DecidableEq

/-- `Column::new`. -/
def Column.new (name : String) : Column :=
  { name := name, tasks := [] }

/-- `Column::add_task`: always appends (Vec::push). -/
def Column.add_task (c : Column) (t : Task) : Column :=
  { c with tasks := c.tasks ++ [t] }

/-- The body of `Column::remove_task`: `position(|t| t.id == task_id)` then
`Vec::remove(pos)`, i.e. remove the first task whose id matches, returning
it; later tasks shift down, relative order preserved. -/
def removeFirstById : List Task → Nat → Option Task × List Task
  | [], _ => (none, [])
  | t :: ts, task_id =>
    if t.id = task_id then
      (some t, ts)
    else
      let r := removeFirstById ts task_id
      (r.1, t :: r.2)

/-- `Column::remove_task`. -/
def Column.remove_task (c : Column) (task_id : Nat) : Option Task × Column :=
  let r := removeFirstById c.tasks task_id
  (r.1, { c with tasks := r.2 })

/-- `Board` struct from `src/lib.rs`. -/
structure Board where
  name : String
  columns : List Column
  next_task_id : Nat
deriving DecidableEq

/-- `Board::new`: three default columns, `next_task_id = 1`. -/
def Board.new (name : String) : Board :=
  { name := name
    columns := [Column.new "To Do", Column.new "In Progress", Column.new "Done"]
    next_task_id := 1 }

/-- `self.columns[i] = f(self.columns[i])`, a no-op when `i` is out of
range (the Rust call sites bounds-check first). -/
def modifyCol : List Column → Nat → (Column → Column) → List Column
  | [], _, _ => []
  | c :: cs, 0, f => f c :: cs
  | c :: cs, n + 1, f => c :: modifyCol cs n f

/-- `self.columns[i]` read off totally (call sites are bounds-checked). -/
def Board.col (b : Board) (i : Nat) : Column :=
  b.columns.getD i (Column.new "")

/-- `Board::add_task`: bounds check, allocate `next_task_id`, bump the
counter, push a fresh task onto the column. -/
def Board.add_task (b : Board) (column_index : Nat) (title now : String) :
    Except String Nat × Board :=
  if column_index ≥ b.columns.length then
    (.error "Column index out of bounds", b)
  else
    let task_id := b.next_task_id
    let task := Task.new task_id title now
    (.ok task_id,
      { b with
          next_task_id := task_id + 1
          columns := modifyCol b.columns column_index (fun c => c.add_task task) })

/-- `Board::move_task`: both indices bounds-checked first, then the task is
removed from `from_column` (error if absent there) and appended to
`to_column` of the already-updated column list — so `from = to` appends to
the column with the task removed. -/
def Board.move_task (b : Board) (from_column to_column task_id : Nat) :
    Except String Unit × Board :=
  if from_column ≥ b.columns.length ∨ to_column ≥ b.columns.length then
    (.error "Column index out of bounds", b)
  else
    match removeFirstById (b.col from_column).tasks task_id with
    | (none, _) => (.error "Task not found in source column", b)
    | (some task, rest) =>
      let cols1 := modifyCol b.columns from_column (fun c => { c with tasks := rest })
      let cols2 := modifyCol cols1 to_column (fun c => c.add_task task)
      (.ok (), { b with columns := cols2 })

/-- `iter_mut().find(|t| t.id == task_id)` followed by a mutation: update
the first task with the given id, leave the list unchanged if absent. -/
def updateTaskInList (ts : List Task) (task_id : Nat) (f : Task → Task) : List Task :=
  match ts with
  | [] => []
  | t :: rest =>
    if t.id = task_id then f t :: rest
    else t :: updateTaskInList rest task_id f

/-- `Board::cycle_task_priority`. -/
def Board.cycle_task_priority (b : Board) (column_index task_id : Nat) (now : String) :
    Except String Unit × Board :=
  if column_index ≥ b.columns.length then
    (.error "Column index out of bounds", b)
  else if (b.col column_index).tasks.any (fun t => t.id == task_id) then
    (.ok (),
      { b with
          columns := modifyCol b.columns column_index
            (fun c =>
              { c with tasks := updateTaskInList c.tasks task_id (fun t => t.cycle_priority now) }) })
  else
    (.error "Task not found in column", b)

/-- Input modes of the App state machine, from `src/app.rs`. -/
inductive InputMode where
  | Normal
  | Creating
  | Editing
  | Viewing
  | EditingDescription
  | AddingTag
  | SelectingBoard
  | CreatingBoard
deriving DecidableEq

/-- `App` struct from `src/app.rs`.  The `Storage` handle is external I/O
and is not part of the modelled state; operations that read from storage
take the read results as explicit arguments instead. -/
structure App where
  board : Board
  selected_column : Nat
  selected_task_index : Option Nat
  input_mode : InputMode
  input_buffer : String
  editing_task_id : Option Nat
  current_board_name : String
  available_boards : List String
  selected_board_index : Option Nat
deriving DecidableEq

/-- `App::new` with the storage reads abstracted: `board` is the board the
constructor loaded (or freshly created), `current_board_name` the active
board name read from metadata, `available_boards` the listed names.  The
selection fields are set exactly as in the source: `selected_column = 0`,
`selected_task_index = None`, `input_mode = Normal`. -/
def App.new (board : Board) (current_board_name : String)
    (available_boards : List String) : App :=
  { board := board
    selected_column := 0
    selected_task_index := none
    input_mode := .Normal
    input_buffer := ""
    editing_task_id := none
    current_board_name := current_board_name
    available_boards := available_boards
    selected_board_index := none }

/-- `App::update_task_selection`: auto-select the first task if the selected
column has tasks, otherwise clear the selection. -/
def App.update_task_selection (a : App) : App :=
  let task_count := (a.board.col a.selected_column).tasks.length
  { a with selected_task_index := if task_count > 0 then some 0 else none }

/-- Model of Rust `str::trim`: drop leading and trailing whitespace. -/
def rustTrim (s : String) : String :=
  ⟨(((s.data.dropWhile Char.isWhitespace).reverse.dropWhile Char.isWhitespace).reverse)⟩

/-- `App::switch_board` with the storage interaction abstracted: `loaded` is
the board obtained by `load_board(name).ok().flatten().unwrap_or(Board::new
(name))`, and `boards` the refreshed `list_boards()` result.  An empty
trimmed buffer aborts with no change; otherwise the board is replaced and
the selection reset to `(0, None)`. -/
def App.switch_board (a : App) (loaded : Board) (boards : List String) : App :=
  let board_name := rustTrim a.input_buffer
  if board_name = "" then a
  else
    { a with
        board := loaded
        current_board_name := board_name
        available_boards := boards
        selected_column := 0
        selected_task_index := none }

/-- The default used to totalize list indexing inside App operations; the
Rust code only indexes after a bounds check, so it is never read. -/
def dummyTask : Task := Task.new 0 "" ""

/-- `App::delete_selected_task`: with a selection in range, remove the
selected task by id and repair the selection; otherwise do nothing. -/
def App.delete_selected_task (a : App) : App :=
  match a.selected_task_index with
  | none => a
  | some task_idx =>
    let column := a.board.col a.selected_column
    if task_idx < column.tasks.length then
      let task_id := (column.tasks.getD task_idx dummyTask).id
      let board1 :=
        { a.board with
            columns := modifyCol a.board.columns a.selected_column
              (fun c => { c with tasks := (removeFirstById c.tasks task_id).2 }) }
      let new_task_count := (board1.col a.selected_column).tasks.length
      let sel :=
        if new_task_count = 0 then none
        else if task_idx ≥ new_task_count then some (new_task_count - 1)
        else a.selected_task_index
      { a with board := board1, selected_task_index := sel }
    else a

/-- `App::move_task_left`: no-op at the first column; otherwise move the
selected task one column left, follow it with the column selection, and
re-derive the task selection by searching for its id. -/
def App.move_task_left (a : App) : App :=
  if a.selected_column = 0 then a
  else
    match a.selected_task_index with
    | none => a
    | some task_idx =>
      let column := a.board.col a.selected_column
      if task_idx < column.tasks.length then
        let task_id := (column.tasks.getD task_idx dummyTask).id
        let to_column := a.selected_column - 1
        match a.board.move_task a.selected_column to_column task_id with
        | (.ok _, board1) =>
          { a with
              board := board1
              selected_column := to_column
              selected_task_index :=
                (board1.col to_column).tasks.findIdx? (fun t => t.id == task_id) }
        | (.error _, board1) => { a with board := board1 }
      else a

/-- `App::move_task_right`: no-op at the last column; otherwise symmetric to
`move_task_left`. -/
def App.move_task_right (a : App) : App :=
  if a.selected_column ≥ a.board.columns.length - 1 then a
  else
    match a.selected_task_index with
    | none => a
    | some task_idx =>
      let column := a.board.col a.selected_column
      if task_idx < column.tasks.length then
        let task_id := (column.tasks.getD task_idx dummyTask).id
        let to_column := a.selected_column + 1
        match a.board.move_task a.selected_column to_column task_id with
        | (.ok _, board1) =>
          { a with
              board := board1
              selected_column := to_column
              selected_task_index :=
                (board1.col to_column).tasks.findIdx? (fun t => t.id == task_id) }
        | (.error _, board1) => { a with board := board1 }
      else a

/-- `App::cycle_priority`: with a selection in range, cycle the priority of
the selected task through the Board operation, swallowing its result. -/
def App.cycle_priority (a : App) (now : String) : App :=
  match a.selected_task_index with
  | none => a
  | some task_idx =>
    let column := a.board.col a.selected_column
    if task_idx < column.tasks.length then
      let task_id := (column.tasks.getD task_idx dummyTask).id
      { a with board := (a.board.cycle_task_priority a.selected_column task_id now).2 }
    else a

end Kanban

open Kanban

section PriorityClaims

/-- C1 counterexample: the claim reads the comment `High > Medium > Low >
None` as the derived comparison operator, but Rust's derived order compares
variants in declaration order, so `Medium < High` is false (in fact
`High < Medium`). -/
theorem priority_derived_order_counterexample :
    ¬ (Priority.ltb .Medium .High = true) := by
  decide

/-- C1 (amended): under the derived total order on `Priority` (declaration
order), High compares strictly less than Medium, Medium strictly less than
Low, and Low strictly less than None — higher priorities sort first. -/
theorem priority_derived_order :
    Priority.ltb .High .Medium = true ∧
    Priority.ltb .Medium .Low = true ∧
    Priority.ltb .Low .None = true ∧
    (∀ p q : Priority, Priority.ltb p q = true ↔ p.discriminant < q.discriminant) := by
  refine ⟨by decide, by decide, by decide, ?_⟩
  intro p q
  simp [Priority.ltb]

/-- C8: `cycle_priority` applied four times returns a task's priority to its
original value, following None→Low→Medium→High→None, and `Priority.next`
iterated four times is the identity on every priority. -/
theorem cycle_priority_four_times_identity (t : Kanban.Task) (n1 n2 n3 n4 : String) :
    ((((t.cycle_priority n1).cycle_priority n2).cycle_priority n3).cycle_priority n4).priority
        = t.priority ∧
    (∀ p : Priority, p.next.next.next.next = p) ∧
    Priority.None.next = .Low ∧ Priority.Low.next = .Medium ∧
    Priority.Medium.next = .High ∧ Priority.High.next = .None := by
  refine ⟨?_, fun p => by cases p <;> rfl, rfl, rfl, rfl, rfl⟩
  cases t with
  | mk id title description priority tags created_at updated_at due_date =>
    cases priority <;> rfl

/-- C9: `add_tag` is idempotent under duplicate insertion — adding the same
tag twice yields the same tags list as adding it once; on a task with no
tags a non-empty tag added twice yields a singleton tags list; adding an
empty tag never changes the tags list. -/
theorem add_tag_idempotent (t : Kanban.Task) (tag n1 n2 : String) :
    ((t.add_tag tag n1).add_tag tag n2).tags = (t.add_tag tag n1).tags ∧
    (t.tags = [] → tag ≠ "" → ((t.add_tag tag n1).add_tag tag n2).tags.length = 1) ∧
    (t.add_tag "" n1).tags = t.tags := by
  have hidem : ∀ (s : Kanban.Task) (m1 m2 : String),
      ((s.add_tag tag m1).add_tag tag m2).tags = (s.add_tag tag m1).tags := by
    intro s m1 m2
    by_cases hmem : tag ∈ s.tags
    · have h1 : s.add_tag tag m1 = s := by simp [Kanban.Task.add_tag, hmem]
      have h2 : s.add_tag tag m2 = s := by simp [Kanban.Task.add_tag, hmem]
      rw [h1, h2]
    · by_cases hemp : tag = ""
      · have h1 : s.add_tag tag m1 = s := by simp [Kanban.Task.add_tag, hemp]
        have h2 : s.add_tag tag m2 = s := by simp [Kanban.Task.add_tag, hemp]
        rw [h1, h2]
      · have h1 : s.add_tag tag m1 = { s with tags := s.tags ++ [tag], updated_at := m1 } := by
          simp [Kanban.Task.add_tag, hmem, hemp]
        have hmem2 : tag ∈ ({ s with tags := s.tags ++ [tag], updated_at := m1 } : Kanban.Task).tags := by
          simp
        have h2 : ({ s with tags := s.tags ++ [tag], updated_at := m1 } : Kanban.Task).add_tag tag m2
            = { s with tags := s.tags ++ [tag], updated_at := m1 } := by
          simp [Kanban.Task.add_tag, hmem2]
        rw [h1, h2]
  refine ⟨hidem t n1 n2, ?_, by simp [Kanban.Task.add_tag]⟩
  intro htags hne
  have hmem : ¬ tag ∈ t.tags := by simp [htags]
  have h1 : t.add_tag tag n1 = { t with tags := t.tags ++ [tag], updated_at := n1 } := by
    simp [Kanban.Task.add_tag, hmem, hne]
  rw [hidem t n1 n2, h1, htags]
  simp

/-- Witness for C9 at a concrete task and tag. -/
theorem add_tag_idempotent_witness :
    ((((Kanban.Task.new 1 "Task" "t0").add_tag "urgent" "t1").add_tag "urgent" "t2").tags).length
      = 1 :=
  (add_tag_idempotent (Kanban.Task.new 1 "Task" "t0") "urgent" "t1" "t2").2.1 rfl (by decide)

end PriorityClaims

section AppClaims

/-- A loaded board whose first column is nonempty, as storage would return
it for an existing board with tasks. -/
def loadedSample : Board := ((Board.new "default").add_task 0 "Write tests" "2024-01-01").2

/-- The App state `App::new` builds from `loadedSample`. -/
def appSample : App := App.new loadedSample "default" ["default"]

/-- C2 counterexample: `App::new` sets `selected_task_index = None`
unconditionally, so after loading a board whose first column is nonempty
the claimed invariant "`selected_task_index` is `None` iff the selected
column is empty" is false in the constructed state. -/
theorem app_new_selection_invariant_counterexample :
    ¬ ((appSample.selected_task_index = none) ↔
        (appSample.board.col appSample.selected_column).tasks.length = 0) := by
  decide

/-- C2 (amended): `App::new` and the board-switch procedure reset
`selected_column` to 0 and `selected_task_index` to `None` unconditionally
(no auto-selection), so the "None iff empty" equivalence need not hold in
those states; it is (re-)established by `update_task_selection`, which sets
the selection to `Some 0` (a valid index) when the selected column is
nonempty and to `None` otherwise. -/
theorem app_new_and_switch_reset (b : Board) (nm : String) (l : List String)
    (a : App) (loaded : Board) (boards : List String)
    (h : rustTrim a.input_buffer ≠ "") :
    (App.new b nm l).selected_column = 0 ∧
    (App.new b nm l).selected_task_index = none ∧
    (a.switch_board loaded boards).selected_column = 0 ∧
    (a.switch_board loaded boards).selected_task_index = none ∧
    ((a.update_task_selection).selected_task_index =
      if (a.board.col a.selected_column).tasks.length = 0 then none else some 0) ∧
    (∀ i, (a.update_task_selection).selected_task_index = some i →
      i < (a.board.col a.selected_column).tasks.length) := by
  refine ⟨rfl, rfl, ?_, ?_, ?_, ?_⟩
  · simp [App.switch_board, h]
  · simp [App.switch_board, h]
  · by_cases hz : (a.board.col a.selected_column).tasks.length = 0 <;>
      simp [App.update_task_selection, hz]
  · intro i hi
    by_cases hz : (a.board.col a.selected_column).tasks.length = 0 <;>
      simp [App.update_task_selection, hz] at hi
    · omega

/-- An App state about to switch from board "b1" to board "other". -/
def appSwitchSample : App :=
  { App.new (Board.new "b1") "b1" ["b1", "other"] with input_buffer := "other" }

/-- Witness for C2 at a concrete switching state. -/
theorem app_new_and_switch_reset_witness :
    rustTrim appSwitchSample.input_buffer ≠ "" ∧
    (appSwitchSample.switch_board (Board.new "other") ["b1", "other"]).selected_column = 0 ∧
    (appSwitchSample.switch_board (Board.new "other") ["b1", "other"]).selected_task_index = none := by
  refine ⟨by decide, ?_, ?_⟩
  · exact (app_new_and_switch_reset (Board.new "b1") "b1" [] appSwitchSample
      (Board.new "other") ["b1", "other"] (by decide)).2.2.1
  · exact (app_new_and_switch_reset (Board.new "b1") "b1" [] appSwitchSample
      (Board.new "other") ["b1", "other"] (by decide)).2.2.2.1

/-- C4: `move_task` with an out-of-range column index (either side) returns
the column-index-out-of-bounds error and leaves the Board completely
unchanged — the bounds check on both indices precedes any removal. -/
theorem move_task_oob_unchanged (b : Board) (from_column to_column task_id : Nat)
    (h : from_column ≥ b.columns.length ∨ to_column ≥ b.columns.length) :
    b.move_task from_column to_column task_id = (.error "Column index out of bounds", b) := by
  simp only [Board.move_task]
  rw [if_pos h]

/-- Witness for C4: a fresh 3-column board with source index 3. -/
theorem move_task_oob_unchanged_witness :
    (3 ≥ (Board.new "B").columns.length ∨ 0 ≥ (Board.new "B").columns.length) ∧
    (Board.new "B").move_task 3 0 1 = (.error "Column index out of bounds", Board.new "B") :=
  ⟨Or.inl (by decide), move_task_oob_unchanged (Board.new "B") 3 0 1 (Or.inl (by decide))⟩

/-- C10: with `selected_task_index = Some i` out of range for the (valid)
selected column, `delete_selected_task`, `cycle_priority`, `move_task_left`
and `move_task_right` are guarded no-ops: the whole App state (board,
selection, input mode, buffers) is unchanged. -/
theorem invalid_selection_guarded_noop (a : App) (i : Nat) (now : String)
    (hcol : a.selected_column < a.board.columns.length)
    (hsel : a.selected_task_index = some i)
    (hout : (a.board.col a.selected_column).tasks.length ≤ i) :
    a.delete_selected_task = a ∧ a.cycle_priority now = a ∧
    a.move_task_left = a ∧ a.move_task_right = a := by
  have hnot : ¬ i < (a.board.col a.selected_column).tasks.length := Nat.not_lt.mpr hout
  refine ⟨?_, ?_, ?_, ?_⟩
  · simp [App.delete_selected_task, hsel, hnot]
  · simp [App.cycle_priority, hsel, hnot]
  · by_cases h0 : a.selected_column = 0
    · simp [App.move_task_left, h0]
    · simp [App.move_task_left, h0, hsel, hnot]
  · by_cases hlast : a.selected_column ≥ a.board.columns.length - 1
    · simp [App.move_task_right, hlast]
    · simp [App.move_task_right, hlast, hsel, hnot]

/-- An App state with a dangling selection: `Some 5` over an empty column. -/
def appInvalidSel : App :=
  { App.new (Board.new "B") "B" ["B"] with selected_task_index := some 5 }

/-- Witness for C10 at the dangling-selection state. -/
theorem invalid_selection_guarded_noop_witness :
    appInvalidSel.selected_column < appInvalidSel.board.columns.length ∧
    appInvalidSel.delete_selected_task = appInvalidSel ∧
    appInvalidSel.move_task_right = appInvalidSel := by
  refine ⟨by decide, ?_, ?_⟩
  · exact (invalid_selection_guarded_noop appInvalidSel 5 "t" (by decide) rfl (by decide)).1
  · exact (invalid_selection_guarded_noop appInvalidSel 5 "t" (by decide) rfl (by decide)).2.2.2

end AppClaims

namespace Kanban

/-- The Board-mutating operations relevant to id management: `add_task`,
`move_task`, and removal of a task from one column (App-level deletion goes
through `columns[c].remove_task(id)`). -/
inductive BOp where
  | add (column_index : Nat) (title now : String)
  | move (from_column to_column task_id : Nat)
  | remove (column_index task_id : Nat)

/-- Removing a task by id from one column of the board, as
`App::delete_selected_task` does via `Column::remove_task`. -/
def Board.remove_from_column (b : Board) (column_index task_id : Nat) : Board :=
  { b with
      columns := modifyCol b.columns column_index
        (fun c => { c with tasks := (removeFirstById c.tasks task_id).2 }) }

/-- Run one operation, keeping only the final board state. -/
def applyOp (b : Board) : BOp → Board
  | .add c title now => (b.add_task c title now).2
  | .move f t id => (b.move_task f t id).2
  | .remove c id => b.remove_from_column c id

/-- Run a trace of operations. -/
def applyOps (b : Board) : List BOp → Board
  | [] => b
  | op :: ops => applyOps (applyOp b op) ops

/-- The ids returned by the successful `add_task` calls of a trace, in call
order. -/
def issuedIds (b : Board) : List BOp → List Nat
  | [] => []
  | .add c title now :: ops =>
    match b.add_task c title now with
    | (.ok id, b1) => id :: issuedIds b1 ops
    | (.error _, b1) => issuedIds b1 ops
  | .move f t tid :: ops => issuedIds (b.move_task f t tid).2 ops
  | .remove c tid :: ops => issuedIds (b.remove_from_column c tid) ops

theorem add_task_oob {b : Board} {c : Nat} (title now : String) (h : c ≥ b.columns.length) :
    b.add_task c title now = (.error "Column index out of bounds", b) := by
  simp only [Board.add_task]
  rw [if_pos h]

theorem add_task_ok {b : Board} {c : Nat} (title now : String) (h : ¬ c ≥ b.columns.length) :
    b.add_task c title now =
      (.ok b.next_task_id,
        { b with
            next_task_id := b.next_task_id + 1
            columns := modifyCol b.columns c
              (fun col => col.add_task (Task.new b.next_task_id title now)) }) := by
  simp only [Board.add_task]
  rw [if_neg h]

theorem issuedIds_add_oob {b : Board} {c : Nat} {title now : String} {ops : List BOp}
    (h : c ≥ b.columns.length) :
    issuedIds b (.add c title now :: ops) = issuedIds b ops := by
  simp only [issuedIds]
  rw [add_task_oob title now h]

theorem issuedIds_add_ok {b : Board} {c : Nat} {title now : String} {ops : List BOp}
    (h : ¬ c ≥ b.columns.length) :
    issuedIds b (.add c title now :: ops)
      = b.next_task_id :: issuedIds (b.add_task c title now).2 ops := by
  simp only [issuedIds]
  rw [add_task_ok title now h]

theorem move_task_next_id (b : Board) (f t id : Nat) :
    ((b.move_task f t id).2).next_task_id = b.next_task_id := by
  by_cases h : f ≥ b.columns.length ∨ t ≥ b.columns.length
  · simp only [Board.move_task]
    rw [if_pos h]
  · simp only [Board.move_task]
    rw [if_neg h]
    rcases hr : removeFirstById (b.col f).tasks id with ⟨r1, r2⟩
    cases r1 <;> simp

theorem applyOp_next_id_mono (b : Board) (op : BOp) :
    b.next_task_id ≤ (applyOp b op).next_task_id := by
  cases op with
  | add c title now =>
    by_cases h : c ≥ b.columns.length
    · simp [applyOp, add_task_oob title now h]
    · simp [applyOp, add_task_ok title now h]
  | move f t id => simp [applyOp, move_task_next_id]
  | remove c id => simp [applyOp, Board.remove_from_column]

theorem applyOps_next_id_mono (b : Board) (ops : List BOp) :
    b.next_task_id ≤ (applyOps b ops).next_task_id := by
  induction ops generalizing b with
  | nil => exact Nat.le_refl _
  | cons op ops ih =>
    exact Nat.le_trans (applyOp_next_id_mono b op) (ih (applyOp b op))

theorem issuedIds_lower_bound (b : Board) (ops : List BOp) :
    ∀ id ∈ issuedIds b ops, b.next_task_id ≤ id := by
  induction ops generalizing b with
  | nil => intro id h; simp [issuedIds] at h
  | cons op ops ih =>
    intro id hmem
    cases op with
    | add c title now =>
      by_cases h : c ≥ b.columns.length
      · rw [issuedIds_add_oob h] at hmem
        exact ih b id hmem
      · rw [issuedIds_add_ok h] at hmem
        rcases List.mem_cons.mp hmem with heq | htail
        · exact Nat.le_of_eq heq.symm
        · have hle := ih _ id htail
          rw [add_task_ok title now h] at hle
          simp at hle
          omega
    | move f t tid =>
      have hmem2 : id ∈ issuedIds (b.move_task f t tid).2 ops := hmem
      have hle := ih _ id hmem2
      calc b.next_task_id ≤ ((b.move_task f t tid).2).next_task_id :=
            Nat.le_of_eq (move_task_next_id b f t tid).symm
        _ ≤ id := hle
    | remove c tid =>
      have hmem2 : id ∈ issuedIds (b.remove_from_column c tid) ops := hmem
      exact ih (b.remove_from_column c tid) id hmem2

theorem issuedIds_upper_bound (b : Board) (ops : List BOp) :
    ∀ id ∈ issuedIds b ops, id < (applyOps b ops).next_task_id := by
  induction ops generalizing b with
  | nil => intro id h; simp [issuedIds] at h
  | cons op ops ih =>
    intro id hmem
    show id < (applyOps (applyOp b op) ops).next_task_id
    cases op with
    | add c title now =>
      by_cases h : c ≥ b.columns.length
      · rw [issuedIds_add_oob h] at hmem
        have hb : applyOp b (.add c title now) = b := by
          simp [applyOp, add_task_oob title now h]
        rw [hb]
        exact ih b id hmem
      · rw [issuedIds_add_ok h] at hmem
        have hb : applyOp b (.add c title now) = (b.add_task c title now).2 := rfl
        rw [hb]
        rcases List.mem_cons.mp hmem with heq | htail
        · subst heq
          have hm := applyOps_next_id_mono (b.add_task c title now).2 ops
          have hnext : ((b.add_task c title now).2).next_task_id = b.next_task_id + 1 := by
            rw [add_task_ok title now h]
          omega
        · exact ih _ id htail
    | move f t tid =>
      have hmem2 : id ∈ issuedIds (b.move_task f t tid).2 ops := hmem
      exact ih _ id hmem2
    | remove c tid =>
      have hmem2 : id ∈ issuedIds (b.remove_from_column c tid) ops := hmem
      exact ih _ id hmem2

theorem issuedIds_chain (b : Board) (ops : List BOp) :
    List.Chain' (· < ·) (issuedIds b ops) := by
  induction ops generalizing b with
  | nil => simp [issuedIds]
  | cons op ops ih =>
    cases op with
    | add c title now =>
      by_cases h : c ≥ b.columns.length
      · rw [issuedIds_add_oob h]
        exact ih b
      · rw [issuedIds_add_ok h]
        refine List.chain'_cons'.mpr ⟨?_, ih _⟩
        intro y hy
        have hmem := List.mem_of_mem_head? hy
        have hlb := issuedIds_lower_bound _ ops y hmem
        rw [add_task_ok title now h] at hlb
        simp at hlb
        omega
    | move f t tid =>
      exact ih (b.move_task f t tid).2
    | remove c tid =>
      exact ih (b.remove_from_column c tid)

end Kanban

section IdClaims

/-- C3: across any interleaving of add, move and remove operations on a
Board, the ids returned by successful `add_task` calls form a strictly
increasing sequence (hence are never reused, even after removal of the task
holding one), `next_task_id` stays strictly greater than every id ever
issued, and a successful `add_task` on a valid column returns exactly
`next_task_id` and bumps the counter by one. -/
theorem add_task_ids_strictly_increasing (b : Board) (ops : List BOp) :
    List.Chain' (· < ·) (issuedIds b ops) ∧
    (∀ id, id ∈ issuedIds b ops → id < (applyOps b ops).next_task_id) ∧
    (∀ c title now, c < b.columns.length →
      (b.add_task c title now).1 = .ok b.next_task_id ∧
      (b.add_task c title now).2.next_task_id = b.next_task_id + 1) := by
  refine ⟨issuedIds_chain b ops, fun id h => issuedIds_upper_bound b ops id h, ?_⟩
  intro c title now hc
  rw [add_task_ok title now (Nat.not_le.mpr hc)]
  exact ⟨rfl, rfl⟩

/-- A concrete trace for C3: two adds, a removal of the first task, then a
third add; the issued ids are 1, 2, 3 and the final counter is 4. -/
def traceC3 : List BOp :=
  [.add 0 "Write tests" "t1", .add 0 "X" "t2", .remove 0 1, .add 1 "Y" "t3"]

/-- Witness for C3: in the concrete trace the third add still returns a
fresh id (3), strictly below the final `next_task_id`. -/
theorem add_task_ids_strictly_increasing_witness :
    3 ∈ issuedIds (Board.new "Test") traceC3 ∧
    3 < (applyOps (Board.new "Test") traceC3).next_task_id :=
  ⟨by decide,
    (add_task_ids_strictly_increasing (Board.new "Test") traceC3).2.1 3 (by decide)⟩

end IdClaims

namespace Kanban

theorem modifyCol_length (cols : List Column) (i : Nat) (f : Column → Column) :
    (modifyCol cols i f).length = cols.length := by
  induction cols generalizing i with
  | nil => rfl
  | cons c cs ih =>
    cases i with
    | zero => rfl
    | succ n => simp [modifyCol, ih]

theorem modifyCol_getD_self (cols : List Column) (i : Nat) (f : Column → Column) (d : Column) :
    i < cols.length → (modifyCol cols i f).getD i d = f (cols.getD i d) := by
  induction cols generalizing i with
  | nil => intro h; simp at h
  | cons c cs ih =>
    intro h
    cases i with
    | zero => rfl
    | succ n =>
      simp only [modifyCol, List.getD_cons_succ]
      exact ih n (by simpa using h)

theorem modifyCol_getD_other (cols : List Column) (i j : Nat) (f : Column → Column) (d : Column) :
    i ≠ j → (modifyCol cols i f).getD j d = cols.getD j d := by
  induction cols generalizing i j with
  | nil => intro _; rfl
  | cons c cs ih =>
    intro h
    cases i with
    | zero =>
      cases j with
      | zero => exact absurd rfl h
      | succ m => simp [modifyCol, List.getD_cons_succ]
    | succ n =>
      cases j with
      | zero => simp [modifyCol, List.getD_cons_zero]
      | succ m =>
        simp only [modifyCol, List.getD_cons_succ]
        exact ih n m (fun hh => h (by rw [hh]))

theorem col_modify_self (b : Board) (sc : Nat) (f : Column → Column)
    (h : sc < b.columns.length) :
    ({ b with columns := modifyCol b.columns sc f } : Board).col sc = f (b.col sc) := by
  simp only [Board.col]
  exact modifyCol_getD_self b.columns sc f (Column.new "") h

theorem col_modify_other (b : Board) (sc j : Nat) (f : Column → Column)
    (h : sc ≠ j) :
    ({ b with columns := modifyCol b.columns sc f } : Board).col j = b.col j := by
  simp only [Board.col]
  exact modifyCol_getD_other b.columns sc j f (Column.new "") h

theorem removeFirstById_not_mem (ts : List Task) (tid : Nat)
    (h : tid ∉ ts.map Task.id) :
    removeFirstById ts tid = (none, ts) := by
  induction ts with
  | nil => rfl
  | cons t ts ih =>
    simp only [List.map_cons, List.mem_cons, not_or] at h
    have hne : ¬ t.id = tid := fun he => h.1 he.symm
    simp [removeFirstById, hne, ih h.2]

theorem removeFirstById_mem (ts : List Task) (tid : Nat)
    (h : tid ∈ ts.map Task.id) :
    ∃ t rest, removeFirstById ts tid = (some t, rest) ∧ t.id = tid ∧ t ∈ ts := by
  induction ts with
  | nil => simp at h
  | cons t ts ih =>
    by_cases he : t.id = tid
    · exact ⟨t, ts, by simp [removeFirstById, he], he, List.mem_cons_self t ts⟩
    · have h2 : tid ∈ ts.map Task.id := by
        simp only [List.map_cons, List.mem_cons] at h
        rcases h with h | h
        · exact absurd h.symm he
        · exact h
      obtain ⟨u, rest, hr, hu, hmem⟩ := ih h2
      exact ⟨u, t :: rest, by simp [removeFirstById, he, hr], hu, List.mem_cons_of_mem t hmem⟩

theorem removeFirstById_append_last (ts : List Task) (t : Task) (tid : Nat)
    (h : tid ∉ ts.map Task.id) (ht : t.id = tid) :
    removeFirstById (ts ++ [t]) tid = (some t, ts) := by
  induction ts with
  | nil => simp [removeFirstById, ht]
  | cons u ts ih =>
    simp only [List.map_cons, List.mem_cons, not_or] at h
    have hne : ¬ u.id = tid := fun he => h.1 he.symm
    simp [removeFirstById, hne, ih h.2]

theorem filter_ne_id_eq_self (ts : List Task) (tid : Nat)
    (h : tid ∉ ts.map Task.id) :
    ts.filter (fun u => u.id != tid) = ts := by
  induction ts with
  | nil => rfl
  | cons t ts ih =>
    simp only [List.map_cons, List.mem_cons, not_or] at h
    have hne : (t.id != tid) = true := bne_iff_ne.mpr (fun he => h.1 he.symm)
    simp [List.filter_cons, hne, ih h.2]

theorem removeFirstById_nodup_filter (ts : List Task) (tid : Nat)
    (hnodup : (ts.map Task.id).Nodup) (h : tid ∈ ts.map Task.id) :
    ∃ t, t ∈ ts ∧ t.id = tid ∧
      removeFirstById ts tid = (some t, ts.filter (fun u => u.id != tid)) := by
  induction ts with
  | nil => simp at h
  | cons t ts ih =>
    simp only [List.map_cons, List.nodup_cons] at hnodup
    by_cases he : t.id = tid
    · have hnot : tid ∉ ts.map Task.id := by rw [← he]; exact hnodup.1
      refine ⟨t, List.mem_cons_self t ts, he, ?_⟩
      have hbne : (t.id != tid) = false := by simp [he]
      simp [removeFirstById, he, List.filter_cons, hbne, filter_ne_id_eq_self ts tid hnot]
    · have h2 : tid ∈ ts.map Task.id := by
        simp only [List.map_cons, List.mem_cons] at h
        rcases h with h | h
        · exact absurd h.symm he
        · exact h
      obtain ⟨u, hmem, hu, hr⟩ := ih hnodup.2 h2
      have hbne : (t.id != tid) = true := bne_iff_ne.mpr he
      refine ⟨u, List.mem_cons_of_mem t hmem, hu, ?_⟩
      simp [removeFirstById, he, hr, List.filter_cons, hbne]

theorem removeFirstById_getD (ts : List Task) (i : Nat)
    (hnodup : (ts.map Task.id).Nodup) :
    i < ts.length →
    removeFirstById ts ((ts.getD i dummyTask).id)
      = (some (ts.getD i dummyTask), ts.eraseIdx i) := by
  induction ts generalizing i with
  | nil => intro h; simp at h
  | cons t ts ih =>
    intro h
    cases i with
    | zero =>
      simp [removeFirstById, List.getD_cons_zero, List.eraseIdx_cons_zero]
    | succ n =>
      have hn : n < ts.length := by simpa using h
      have htarget : (ts.getD n dummyTask).id ∈ ts.map Task.id := by
        rw [List.getD_eq_getElem ts dummyTask hn]
        exact List.mem_map_of_mem Task.id (List.getElem_mem hn)
      simp only [List.map_cons, List.nodup_cons] at hnodup
      have hne : ¬ t.id = (ts.getD n dummyTask).id := by
        intro he
        rw [he] at hnodup
        exact hnodup.1 htarget
      have hrec := ih n hnodup.2 hn
      rw [List.getD_cons_succ, List.eraseIdx_cons_succ]
      simp only [removeFirstById]
      rw [if_neg hne]
      rw [hrec]

end Kanban

section DeleteClaim

/-- C6: from a valid selection `Some i` (with the selected column's ids
distinct, as the Board's id allocation guarantees), `delete_selected_task`
removes exactly the task at index `i` (later tasks shift down, other
columns untouched, input mode unchanged) and repairs the selection: `None`
if the column becomes empty, the new last index `i - 1` if `i` was the last
index, and `i` itself (now the following task) otherwise. -/
theorem delete_selected_task_selection_repair (a : App) (i : Nat)
    (hcol : a.selected_column < a.board.columns.length)
    (hsel : a.selected_task_index = some i)
    (hi : i < (a.board.col a.selected_column).tasks.length)
    (hnodup : ((a.board.col a.selected_column).tasks.map Kanban.Task.id).Nodup) :
    (a.delete_selected_task.board.col a.selected_column).tasks
      = (a.board.col a.selected_column).tasks.eraseIdx i ∧
    a.delete_selected_task.selected_column = a.selected_column ∧
    (∀ j, j ≠ a.selected_column → a.delete_selected_task.board.col j = a.board.col j) ∧
    a.delete_selected_task.input_mode = a.input_mode ∧
    a.delete_selected_task.selected_task_index =
      (if (a.board.col a.selected_column).tasks.length ≤ 1 then none
       else if i = (a.board.col a.selected_column).tasks.length - 1 then some (i - 1)
       else some i) := by
  have hid := removeFirstById_getD (a.board.col a.selected_column).tasks i hnodup hi
  simp only [App.delete_selected_task, hsel]
  rw [if_pos hi]
  have hcolres :
      ({ a.board with
          columns := modifyCol a.board.columns a.selected_column
            (fun c => { c with tasks :=
              (removeFirstById c.tasks
                ((a.board.col a.selected_column).tasks.getD i dummyTask).id).2 }) } : Board).col
        a.selected_column
      = { (a.board.col a.selected_column) with
            tasks := (a.board.col a.selected_column).tasks.eraseIdx i } := by
    rw [col_modify_self _ _ _ hcol]
    rw [hid]
  refine ⟨?_, rfl, ?_, rfl, ?_⟩
  · show (({ a.board with
        columns := modifyCol a.board.columns a.selected_column
          (fun c => { c with tasks :=
            (removeFirstById c.tasks
              ((a.board.col a.selected_column).tasks.getD i dummyTask).id).2 }) } : Board).col
          a.selected_column).tasks
      = (a.board.col a.selected_column).tasks.eraseIdx i
    rw [hcolres]
  · intro j hj
    exact col_modify_other a.board a.selected_column j _ (fun hh => hj hh.symm)
  · rw [hcolres]
    have hlen : ((a.board.col a.selected_column).tasks.eraseIdx i).length
        = (a.board.col a.selected_column).tasks.length - 1 := by
      rw [List.length_eraseIdx]
      rw [if_pos hi]
    rw [hlen]
    split_ifs <;> first
      | rfl
      | (exact congrArg some (by omega))
      | (exfalso; omega)

/-- A board with three tasks in its first column. -/
def boardThree : Board :=
  ((((Board.new "B").add_task 0 "T1" "t").2.add_task 0 "T2" "t").2.add_task 0 "T3" "t").2

/-- App state selecting the last of the three tasks. -/
def appThree : App :=
  { App.new boardThree "B" ["B"] with selected_task_index := some 2 }

/-- A board with a single task, selected. -/
def boardOne : Board := ((Board.new "B").add_task 0 "Only" "t").2

/-- App state selecting the only task. -/
def appOne : App :=
  { App.new boardOne "B" ["B"] with selected_task_index := some 0 }

/-- Witness for C6: deleting index 2 of a 3-task column moves the selection
to index 1; deleting the only task clears it. -/
theorem delete_selected_task_selection_repair_witness :
    appThree.delete_selected_task.selected_task_index = some 1 ∧
    appOne.delete_selected_task.selected_task_index = none := by
  constructor
  · have h := (delete_selected_task_selection_repair appThree 2 (by decide) rfl
      (by decide) (by decide)).2.2.2.2
    exact h.trans (by decide)
  · have h := (delete_selected_task_selection_repair appOne 0 (by decide) rfl
      (by decide) (by decide)).2.2.2.2
    exact h.trans (by decide)

end DeleteClaim

namespace Kanban

theorem col_modify_modify_self (b : Board) (sc : Nat) (f g : Column → Column)
    (h : sc < b.columns.length) :
    ({ b with columns := modifyCol (modifyCol b.columns sc f) sc g } : Board).col sc
      = g (f (b.col sc)) := by
  simp only [Board.col]
  rw [modifyCol_getD_self (modifyCol b.columns sc f) sc g (Column.new "")
    (by rw [modifyCol_length]; exact h)]
  rw [modifyCol_getD_self b.columns sc f (Column.new "") h]

theorem col_modify_modify_other (b : Board) (sc j : Nat) (f g : Column → Column)
    (h : sc ≠ j) :
    ({ b with columns := modifyCol (modifyCol b.columns sc f) sc g } : Board).col j
      = b.col j := by
  simp only [Board.col]
  rw [modifyCol_getD_other (modifyCol b.columns sc f) sc j g (Column.new "") h]
  rw [modifyCol_getD_other b.columns sc j f (Column.new "") h]

end Kanban

section SameColumnMoveClaim

/-- C7: with distinct ids in column `c` and a task with id `tid` present
there, `move_task(c, c, tid)` succeeds and relocates that task to the end
of column `c`, preserving the relative order of the other tasks (the
remaining list is exactly the original filtered of `tid`); all other
columns and `next_task_id` are unchanged. -/
theorem move_task_same_column_to_end (b : Board) (c tid : Nat)
    (hc : c < b.columns.length)
    (hnodup : ((b.col c).tasks.map Kanban.Task.id).Nodup)
    (hmem : tid ∈ (b.col c).tasks.map Kanban.Task.id) :
    ∃ t, t ∈ (b.col c).tasks ∧ t.id = tid ∧
      (b.move_task c c tid).1 = .ok () ∧
      ((b.move_task c c tid).2.col c).tasks
        = (b.col c).tasks.filter (fun u => u.id != tid) ++ [t] ∧
      (∀ j, j ≠ c → (b.move_task c c tid).2.col j = b.col j) ∧
      (b.move_task c c tid).2.next_task_id = b.next_task_id := by
  obtain ⟨t, hmem1, hid, hr⟩ := removeFirstById_nodup_filter (b.col c).tasks tid hnodup hmem
  have hnoob : ¬ (c ≥ b.columns.length ∨ c ≥ b.columns.length) := by omega
  have hmove : b.move_task c c tid =
      (.ok (),
        { b with columns := modifyCol (modifyCol b.columns c (fun col => { col with tasks := (b.col c).tasks.filter (fun u => u.id != tid) })) c (fun col => col.add_task t) }) := by
    simp only [Board.move_task]
    rw [if_neg hnoob, hr]
  refine ⟨t, hmem1, hid, ?_, ?_, ?_, ?_⟩
  · rw [hmove]
  · rw [hmove]
    rw [col_modify_modify_self b c _ _ hc]
    rfl
  · intro j hj
    rw [hmove]
    exact col_modify_modify_other b c j _ _ (fun hh => hj hh.symm)
  · rw [hmove]

/-- Witness for C7: on a board with tasks 1, 2, 3 in column 0, moving task
1 within column 0 succeeds and leaves the column as ids 2, 3, 1. -/
theorem move_task_same_column_to_end_witness :
    ((boardThree.move_task 0 0 1).1 = .ok () ∧
      ((boardThree.move_task 0 0 1).2.col 0).tasks.map Kanban.Task.id = [2, 3, 1]) := by
  obtain ⟨t, hmem1, hid, hok, htasks, hother, hnext⟩ :=
    move_task_same_column_to_end boardThree 0 1 (by decide) (by decide) (by decide)
  refine ⟨hok, ?_⟩
  rw [htasks]
  simp only [List.map_append, List.map_cons, List.map_nil, hid]
  have hf : List.map Kanban.Task.id
      ((boardThree.col 0).tasks.filter (fun u => u.id != 1)) = [2, 3] := by decide
  rw [hf]
  rfl

end SameColumnMoveClaim

namespace Kanban

/-- All task ids on the board, in column order. -/
def boardIds (b : Board) : List Nat :=
  (b.columns.map (fun c => c.tasks.map Task.id)).flatten

theorem boardIds_col_disjoint (b : Board) (hn : (boardIds b).Nodup) (i j : Nat)
    (hi : i < b.columns.length) (hj : j < b.columns.length) (hij : i ≠ j) :
    ∀ x, x ∈ (b.col i).tasks.map Task.id → x ∉ (b.col j).tasks.map Task.id := by
  have hpair := (List.nodup_flatten.mp hn).2
  rw [List.pairwise_iff_getElem] at hpair
  intro x hxi hxj
  have hi2 : i < (b.columns.map (fun c => c.tasks.map Task.id)).length := by
    simpa using hi
  have hj2 : j < (b.columns.map (fun c => c.tasks.map Task.id)).length := by
    simpa using hj
  have hgi : (b.columns.map (fun c => c.tasks.map Task.id))[i]
      = (b.col i).tasks.map Task.id := by
    rw [List.getElem_map]
    simp only [Board.col]
    rw [List.getD_eq_getElem b.columns (Column.new "") hi]
  have hgj : (b.columns.map (fun c => c.tasks.map Task.id))[j]
      = (b.col j).tasks.map Task.id := by
    rw [List.getElem_map]
    simp only [Board.col]
    rw [List.getD_eq_getElem b.columns (Column.new "") hj]
  rcases Nat.lt_or_ge i j with hlt | hge
  · have hd := hpair i j hi2 hj2 hlt
    rw [hgi, hgj] at hd
    exact hd hxi hxj
  · have hlt2 : j < i := by omega
    have hd := hpair j i hj2 hi2 hlt2
    rw [hgj, hgi] at hd
    exact (List.Disjoint.symm hd) hxi hxj

theorem move_task_ok_decomp (b : Board) (f c tid : Nat) (t : Task) (rest : List Task)
    (hf : f < b.columns.length) (hc : c < b.columns.length)
    (hr : removeFirstById (b.col f).tasks tid = (some t, rest)) :
    b.move_task f c tid =
      (.ok (), { b with columns := modifyCol (modifyCol b.columns f (fun col => { col with tasks := rest })) c (fun col => col.add_task t) }) := by
  have hnoob : ¬ (f ≥ b.columns.length ∨ c ≥ b.columns.length) := by omega
  simp only [Board.move_task]
  rw [if_neg hnoob, hr]

theorem col_modify2_at_fst (b : Board) (f c : Nat) (g1 g2 : Column → Column)
    (hf : f < b.columns.length) (hfc : f ≠ c) :
    ({ b with columns := modifyCol (modifyCol b.columns f g1) c g2 } : Board).col f
      = g1 (b.col f) := by
  simp only [Board.col]
  rw [modifyCol_getD_other (modifyCol b.columns f g1) c f g2 (Column.new "")
    (fun hh => hfc hh.symm)]
  exact modifyCol_getD_self b.columns f g1 (Column.new "") hf

theorem col_modify2_at_snd (b : Board) (f c : Nat) (g1 g2 : Column → Column)
    (hc : c < b.columns.length) (hfc : f ≠ c) :
    ({ b with columns := modifyCol (modifyCol b.columns f g1) c g2 } : Board).col c
      = g2 (b.col c) := by
  simp only [Board.col]
  rw [modifyCol_getD_self (modifyCol b.columns f g1) c g2 (Column.new "")
    (by rw [modifyCol_length]; exact hc)]
  rw [modifyCol_getD_other b.columns f c g1 (Column.new "") hfc]

theorem modify2_length (b : Board) (f c : Nat) (g1 g2 : Column → Column) :
    ({ b with columns := modifyCol (modifyCol b.columns f g1) c g2 } : Board).columns.length
      = b.columns.length := by
  show (modifyCol (modifyCol b.columns f g1) c g2).length = b.columns.length
  rw [modifyCol_length, modifyCol_length]

end Kanban

section RoundtripClaim

/-- C5 (amended with `a ≠ b`): on a board with pairwise-distinct task ids,
distinct valid column indices `a ≠ c`, and a task with id `tid` present in
column `a`, `move_task(a, c, tid)` followed by `move_task(c, a, tid)` both
succeed; afterwards that task is the last element of column `a` and no task
with its id is in column `c` — in fact column `c` is restored exactly. -/
theorem move_task_roundtrip (b : Board) (a c tid : Nat)
    (hnodup : (boardIds b).Nodup)
    (ha : a < b.columns.length) (hc : c < b.columns.length) (hac : a ≠ c)
    (hmem : tid ∈ (b.col a).tasks.map Kanban.Task.id) :
    ∃ t b1 b2, t ∈ (b.col a).tasks ∧ t.id = tid ∧
      b.move_task a c tid = (.ok (), b1) ∧
      b1.move_task c a tid = (.ok (), b2) ∧
      (b2.col a).tasks ≠ [] ∧
      (b2.col a).tasks.getLast? = some t ∧
      (∀ u ∈ (b2.col c).tasks, u.id ≠ tid) ∧
      b2.col c = b.col c := by
  obtain ⟨t, rest, hr, hid, hmem1⟩ := removeFirstById_mem (b.col a).tasks tid hmem
  have hnotc : tid ∉ (b.col c).tasks.map Kanban.Task.id :=
    boardIds_col_disjoint b hnodup a c ha hc hac tid hmem
  have hmove1 := move_task_ok_decomp b a c tid t rest ha hc hr
  set b1 : Board := { b with columns := modifyCol (modifyCol b.columns a (fun col => { col with tasks := rest })) c (fun col => col.add_task t) } with hb1def
  have hb1a : b1.col a = { (b.col a) with tasks := rest } :=
    col_modify2_at_fst b a c _ _ ha hac
  have hb1c : b1.col c = (b.col c).add_task t :=
    col_modify2_at_snd b a c _ _ hc hac
  have hlen1a : a < b1.columns.length := by
    rw [hb1def, modify2_length]; exact ha
  have hlen1c : c < b1.columns.length := by
    rw [hb1def, modify2_length]; exact hc
  have hr2 : removeFirstById (b1.col c).tasks tid = (some t, (b.col c).tasks) := by
    rw [hb1c]
    exact removeFirstById_append_last (b.col c).tasks t tid hnotc hid
  have hmove2 := move_task_ok_decomp b1 c a tid t (b.col c).tasks hlen1c hlen1a hr2
  set b2 : Board := { b1 with columns := modifyCol (modifyCol b1.columns c (fun col => { col with tasks := (b.col c).tasks })) a (fun col => col.add_task t) } with hb2def
  have hb2a : b2.col a = (b1.col a).add_task t :=
    col_modify2_at_snd b1 c a _ _ hlen1a (fun hh => hac hh.symm)
  have hb2c : b2.col c = { (b1.col c) with tasks := (b.col c).tasks } :=
    col_modify2_at_fst b1 c a _ _ hlen1c (fun hh => hac hh.symm)
  refine ⟨t, b1, b2, hmem1, hid, hmove1, hmove2, ?_, ?_, ?_, ?_⟩
  · rw [hb2a]
    show (b1.col a).tasks ++ [t] ≠ []
    simp
  · rw [hb2a]
    show ((b1.col a).tasks ++ [t]).getLast? = some t
    exact List.getLast?_concat _
  · intro u hu he
    rw [hb2c] at hu
    have hu2 : u ∈ (b.col c).tasks := hu
    exact hnotc (by rw [← he]; exact List.mem_map_of_mem Kanban.Task.id hu2)
  · rw [hb2c, hb1c]
    rfl

end RoundtripClaim

section RoundtripCounterexample

/-- C5 counterexample: with `a = b` (the claim does not require the two
column indices to be distinct), the double move leaves the task at the end
of column `a` = `b`, so "not present in column b" fails: on a board whose
column 0 holds the single task with id 1, after `move_task(0,0,1)` twice
the task with id 1 is still in column 0. -/
theorem move_task_roundtrip_counterexample :
    (boardOne.move_task 0 0 1).1 = .ok () ∧
    ((boardOne.move_task 0 0 1).2.move_task 0 0 1).1 = .ok () ∧
    ¬ (∀ u ∈ (((boardOne.move_task 0 0 1).2.move_task 0 0 1).2.col 0).tasks, u.id ≠ 1) := by
  refine ⟨rfl, rfl, by decide⟩

/-- Witness for the amended C5 at concrete distinct columns 0 and 1. -/
theorem move_task_roundtrip_witness :
    ∃ t b1 b2, t ∈ (boardOne.col 0).tasks ∧ t.id = 1 ∧
      boardOne.move_task 0 1 1 = (.ok (), b1) ∧
      b1.move_task 1 0 1 = (.ok (), b2) ∧
      (b2.col 0).tasks ≠ [] ∧
      (b2.col 0).tasks.getLast? = some t ∧
      (∀ u ∈ (b2.col 1).tasks, u.id ≠ 1) ∧
      b2.col 1 = boardOne.col 1 :=
  move_task_roundtrip boardOne 0 1 1 (by decide) (by decide) (by decide) (by decide) (by decide)

end RoundtripCounterexample
